import Mathlib

/-!
Verification of the UI-analysis core of the Clooney frontend agent.

The definitions below are a shallow embedding of the analysis pipeline found
in src/agent/analysis/uiAnalyzer.js (class UIAnalyzer) and
src/agent/analysis/styleExtractor.js (classes StyleExtractor and
ComponentMapper).  JavaScript objects become Lean structures, optional or
possibly-absent string values become Option String, JavaScript string
truthiness becomes the predicate truthy below, and the recursive tree
traversals become mutual structural recursion over an inductive tree of
nodes (one function for a node, one for a child list, mirroring the
node.children.forEach calls).  The traversal in analyzeComponentStructure
keeps a Set of visited node references; on a materialized snapshot tree
(no sharing, no cycles, every node a distinct reference) that check never
fires, so the embedding drops it.  The mutable accumulators of the source
(arrays pushed to during traversal, Sets of seen values, plain objects used
as insertion-ordered maps) become explicitly threaded lists; JavaScript
object iteration order for the string keys involved is insertion order,
modelled by association lists that append new keys at the end.
-/

set_option maxHeartbeats 1000000
set_option maxRecDepth 100000

namespace Clooney

/-- JavaScript truthiness of a possibly-absent string: undefined and the
empty string are falsy, every other string is truthy. -/
def truthy : Option String → Bool
  | none => false
  | some s => s ≠ ""

/-- Value of an optional string with a JavaScript or-default, as in
(v || d): the default is used when the value is absent or empty. -/
def orDefault (o : Option String) (d : String) : String :=
  match o with
  | none => d
  | some s => if s = "" then d else s

/-- Array.prototype.join with a separator, as in classes.join(".") and
classes.join(" "). -/
def joinSep (sep : String) : List String → String
  | [] => ""
  | [s] => s
  | s :: rest => s ++ sep ++ joinSep sep rest

/-- Lowercasing of a string (String.prototype.toLowerCase restricted to
ASCII, which covers every tag, class and id the analyzer compares). -/
def lowerStr (s : String) : String := ⟨s.data.map Char.toLower⟩

/-- Boolean prefix test on character lists. -/
def isPrefixB : List Char → List Char → Bool
  | [], _ => true
  | _ :: _, [] => false
  | a :: as, b :: bs => a == b && isPrefixB as bs

/-- Boolean substring containment on character lists. -/
def containsSub : List Char → List Char → Bool
  | [], needle => needle.isEmpty
  | c :: rest, needle => isPrefixB needle (c :: rest) || containsSub rest needle

/-- String.prototype.includes: substring containment. -/
def strIncludes (s sub : String) : Bool := containsSub s.data sub.data

/-- Numeric value of a decimal digit character. -/
def digitVal (c : Char) : Nat := c.toNat - 48

/-- Decimal value of a list of digit characters. -/
def digitsToNat (l : List Char) : Nat := l.foldl (fun a c => 10 * a + digitVal c) 0

/-- Search for the regular expression (\d+)px: the leftmost maximal run of
decimal digits immediately followed by the characters p and x; yields the
numeric value of the captured digits (parseInt of the capture).  The
accumulator holds the value of the digit run ending just before the current
position, if any. -/
def findPxAux : Option Nat → List Char → Option Nat
  | _, [] => none
  | acc, c :: rest =>
    if c.isDigit then findPxAux (some (10 * acc.getD 0 + digitVal c)) rest
    else
      match acc with
      | some n => if c = 'p' ∧ rest.head? = some 'x' then some n else findPxAux none rest
      | none => findPxAux none rest

/-- Match of value.match(/(\d+)px/) followed by parseInt on the capture. -/
def findPx (value : String) : Option Nat := findPxAux none value.data

/-- Value of parseInt on a spacing or font-size dictionary key such as
"64px": the leading digit run read as a decimal number.  Every key of the
fixed dictionaries starts with a digit, so the NaN case of parseInt does
not arise for the arguments this is applied to. -/
def parsePxKey (k : String) : Nat := digitsToNat (k.data.takeWhile Char.isDigit)

/-- Absolute pixel distance, Math.abs(keyPx - px). -/
def pxDist (a b : Nat) : Nat := (Int.natAbs ((a : Int) - (b : Int)))

/-- The fixed color dictionary of StyleExtractor.buildColorMap, in
declaration order. -/
def colorEntries : List (String × String) :=
  [("#000000", "black"), ("#ffffff", "white"),
   ("#f3f4f6", "gray-100"), ("#e5e7eb", "gray-200"), ("#d1d5db", "gray-300"),
   ("#9ca3af", "gray-400"), ("#6b7280", "gray-500"), ("#4b5563", "gray-600"),
   ("#374151", "gray-700"), ("#1f2937", "gray-800"), ("#111827", "gray-900"),
   ("#3b82f6", "blue-500"), ("#2563eb", "blue-600"), ("#1d4ed8", "blue-700"),
   ("#ef4444", "red-500"), ("#dc2626", "red-600"), ("#b91c1c", "red-700"),
   ("#10b981", "green-500"), ("#059669", "green-600"), ("#047857", "green-700"),
   ("#f59e0b", "amber-500"), ("#d97706", "amber-600"), ("#b45309", "amber-700")]

/-- The fixed spacing dictionary of StyleExtractor.buildSpacingMap, in
declaration order (which is the iteration order of Object.entries, since
none of these keys is an array index). -/
def spacingEntries : List (String × String) :=
  [("0px", "0"), ("4px", "1"), ("8px", "2"), ("12px", "3"), ("16px", "4"),
   ("20px", "5"), ("24px", "6"), ("28px", "7"), ("32px", "8"), ("36px", "9"),
   ("40px", "10"), ("44px", "11"), ("48px", "12"), ("64px", "16"),
   ("80px", "20"), ("96px", "24")]

/-- The fixed font-size dictionary of StyleExtractor.buildFontSizeMap. -/
def fontSizeEntries : List (String × String) :=
  [("12px", "xs"), ("14px", "sm"), ("16px", "base"), ("18px", "lg"),
   ("20px", "xl"), ("24px", "2xl"), ("30px", "3xl"), ("36px", "4xl"),
   ("48px", "5xl")]

/-- One step of the reduce in mapSpacing and mapFontSize: keep the incoming
entry only when its pixel distance is strictly smaller than the distance of
the entry held so far, so on ties the earlier entry wins. -/
def closerStep (px : Nat) (prev kv : String × String) : String × String :=
  if pxDist (parsePxKey kv.1) px < pxDist (parsePxKey prev.1) px then kv else prev

/-- Object.entries(map).reduce with no initial value: the first entry seeds
the fold over the remaining entries; the mapped token of the winning entry
is returned.  (On an empty dictionary the JavaScript reduce would throw;
the dictionaries are fixed and non-empty.) -/
def closestFrom (px : Nat) : List (String × String) → Option String
  | [] => none
  | h :: t => some (t.foldl (closerStep px) h).2

/-- StyleExtractor.mapSpacing: exact dictionary hit first, otherwise parse
a pixel magnitude with /(\d+)px/ and take the nearest entry (first minimal
distance wins), otherwise no token. -/
def mapSpacing (value : String) : Option String :=
  if value = "" then none
  else
    match spacingEntries.lookup value with
    | some v => some v
    | none =>
      match findPx value with
      | some px => closestFrom px spacingEntries
      | none => none

/-- StyleExtractor.mapFontSize, same shape as mapSpacing over the font-size
dictionary. -/
def mapFontSize (size : String) : Option String :=
  if size = "" then none
  else
    match fontSizeEntries.lookup size with
    | some v => some v
    | none =>
      match findPx size with
      | some px => closestFrom px fontSizeEntries
      | none => none

/-- Whitespace as matched by \s in the normalizeColor regular expression
(the characters that occur in computed color strings). -/
def isSpaceChar (c : Char) : Bool := c = ' ' || c = '\t' || c = '\n' || c = '\r'

/-- Attempted match of the regular expression rgb\((\d+),\s*(\d+),\s*(\d+)\)
anchored at the head of the character list. -/
def parseRgbAt (l : List Char) : Option (Nat × Nat × Nat) :=
  match l with
  | 'r' :: 'g' :: 'b' :: '(' :: rest =>
    let d1 := rest.takeWhile Char.isDigit
    let r1 := rest.dropWhile Char.isDigit
    if d1 = [] then none else
    match r1 with
    | ',' :: r2 =>
      let r3 := r2.dropWhile isSpaceChar
      let d2 := r3.takeWhile Char.isDigit
      let r4 := r3.dropWhile Char.isDigit
      if d2 = [] then none else
      match r4 with
      | ',' :: r5 =>
        let r6 := r5.dropWhile isSpaceChar
        let d3 := r6.takeWhile Char.isDigit
        let r7 := r6.dropWhile Char.isDigit
        if d3 = [] then none else
        match r7 with
        | ')' :: _ => some (digitsToNat d1, digitsToNat d2, digitsToNat d3)
        | _ => none
      | _ => none
    | _ => none
  | _ => none

/-- Leftmost match of the rgb regular expression anywhere in the string,
as String.prototype.match searches every start position. -/
def findRgb : List Char → Option (Nat × Nat × Nat)
  | [] => none
  | c :: rest =>
    match parseRgbAt (c :: rest) with
    | some v => some v
    | none => findRgb rest

/-- Hexadecimal digits of a byte value as produced by
n.toString(16).padStart(2, "0") (lowercase, left-padded to two digits). -/
def hexPad2 (n : Nat) : List Char :=
  let d := Nat.toDigits 16 n
  if d.length = 1 then '0' :: d else d

/-- StyleExtractor.normalizeColor: an rgb(r, g, b) match anywhere in the
string is rewritten to a lowercase hex triplet, otherwise the whole string
is lowercased; the empty (falsy) string maps to the empty string. -/
def normalizeColor (color : String) : String :=
  if color = "" then ""
  else
    match findRgb color.data with
    | some (r, g, b) => lowerStr ⟨'#' :: (hexPad2 r ++ hexPad2 g ++ hexPad2 b)⟩
    | none => lowerStr color

/-- StyleExtractor.mapColor: direct dictionary hit, then a hit on the
normalized color, otherwise no token. -/
def mapColor (color : String) : Option String :=
  if color = "" then none
  else
    match colorEntries.lookup color with
    | some v => some v
    | none =>
      match colorEntries.lookup (normalizeColor color) with
      | some v => some v
      | none => none

/-- Geometry captured for a node (all values already rounded). -/
structure Rect where
  x : Int
  y : Int
  width : Int
  height : Int
  top : Int
  left : Int
  bottom : Int
  right : Int
deriving DecidableEq, Repr

/-- Computed-style values captured for a node; every property may be
absent.  Only the properties read by the analysis core are modelled. -/
structure Styles where
  display : Option String := none
  position : Option String := none
  opacity : Option String := none
  width : Option String := none
  height : Option String := none
  padding : Option String := none
  margin : Option String := none
  borderRadius : Option String := none
  backgroundColor : Option String := none
  color : Option String := none
  fontSize : Option String := none
  fontWeight : Option String := none
  flexDirection : Option String := none
  justifyContent : Option String := none
  alignItems : Option String := none
  gap : Option String := none
  gridTemplateColumns : Option String := none
  gridTemplateRows : Option String := none
  boxShadow : Option String := none
deriving DecidableEq, Repr

/-- A node of the captured DOM snapshot (SnapshotNode of the spec): tag
name, optional id, ordered class list, attribute map, geometry, computed
styles (possibly absent), visibility and interactivity flags, and the
ordered children.  The analyzer never reads the attribute map; it is kept
in the model because the spec's data model includes it. -/
inductive Node where
  | mk (tag : String) (id : Option String) (classes : List String)
       (attributes : List (String × String)) (rect : Rect)
       (styles : Option Styles) (isVisible : Bool) (isInteractive : Bool)
       (children : List Node)

def Node.tag : Node → String
  | .mk t _ _ _ _ _ _ _ _ => t

def Node.id : Node → Option String
  | .mk _ i _ _ _ _ _ _ _ => i

def Node.classes : Node → List String
  | .mk _ _ c _ _ _ _ _ _ => c

def Node.attributes : Node → List (String × String)
  | .mk _ _ _ a _ _ _ _ _ => a

def Node.rect : Node → Rect
  | .mk _ _ _ _ r _ _ _ _ => r

def Node.styles : Node → Option Styles
  | .mk _ _ _ _ _ s _ _ _ => s

def Node.children : Node → List Node
  | .mk _ _ _ _ _ _ _ _ ch => ch

theorem Node.sizeOf_children_lt (n : Node) (c : Node) (h : c ∈ n.children) :
    sizeOf c < sizeOf n := by
  cases n with
  | mk t i cls a r s v iv ch =>
    have hc : sizeOf c < sizeOf ch := List.sizeOf_lt_of_mem h
    simp only [Node.mk.sizeOf_spec]
    omega

/-- Structural induction over snapshot trees: to prove a property of every
node it suffices to prove it for a node assuming it for all children. -/
theorem Node.strongInduction {motive : Node → Prop}
    (ind : ∀ n : Node, (∀ c ∈ n.children, motive c) → motive n) :
    ∀ n, motive n := fun n =>
  ind n (fun c _ => Node.strongInduction ind c)
termination_by n => sizeOf n
decreasing_by exact Node.sizeOf_children_lt n c (by assumption)

mutual

/-- Pre-order listing of all nodes of a tree: the node itself, then the
nodes of each child subtree in order.  Every traversal of the analyzer
visits nodes in exactly this order. -/
def preorder : Node → List Node
  | n@(.mk _ _ _ _ _ _ _ _ ch) => n :: preorderList ch

def preorderList : List Node → List Node
  | [] => []
  | c :: cs => preorder c ++ preorderList cs

end

/-- UIAnalyzer.generateComponentSignature on an actual node: the tag, the
classes joined with dots, and the immediate child count, separated by
colons.  (The null guard of the source never fires on a materialized
tree.) -/
def generateComponentSignature (n : Node) : String :=
  n.tag ++ ":" ++ joinSep "." n.classes ++ ":" ++ Nat.repr n.children.length

/-- UIAnalyzer.generateComponentName: a truthy id verbatim, else the first
class name with its non-alphanumeric characters removed, else the tag with
the suffix Component. -/
def generateComponentName (n : Node) : String :=
  if truthy n.id then n.id.getD ""
  else
    match n.classes with
    | c :: _ => ⟨c.data.filter Char.isAlphanum⟩
    | [] => n.tag ++ "Component"

/-- Tags the analyzer treats as interactive. -/
def interactiveTags : List String := ["button", "a", "input", "select", "textarea"]

mutual

/-- UIAnalyzer.hasInteractiveElements: the node itself has an interactive
tag, or some descendant does. -/
def hasInteractiveElements : Node → Bool
  | n@(.mk _ _ _ _ _ _ _ _ ch) =>
    if interactiveTags.contains n.tag then true
    else hasInteractiveList ch

def hasInteractiveList : List Node → Bool
  | [] => false
  | c :: cs => hasInteractiveElements c || hasInteractiveList cs

end

/-- UIAnalyzer.isComponentLike: a truthy id or a non-empty class list, and
at least one child or an interactive element in the subtree. -/
def isComponentLike (n : Node) : Bool :=
  (truthy n.id || !n.classes.isEmpty) && (!n.children.isEmpty || hasInteractiveElements n)

/-- UIAnalyzer.estimateComponentType: the ordered keyword rule list over
the lowercased tag, the lowercased space-joined classes, and the lowercased
id, with fallback container. -/
def estimateComponentType (n : Node) : String :=
  let tag := lowerStr n.tag
  let classes := lowerStr (joinSep " " n.classes)
  let id := lowerStr (n.id.getD "")
  if tag = "button" || strIncludes classes "button" || strIncludes id "btn" then "button"
  else if tag = "nav" || strIncludes classes "nav" || strIncludes classes "menu" then "navigation"
  else if tag = "form" || strIncludes classes "form" then "form"
  else if tag = "input" || tag = "select" || tag = "textarea" then "input"
  else if tag = "img" || tag = "picture" then "image"
  else if tag = "card" || strIncludes classes "card" then "card"
  else if tag = "modal" || strIncludes classes "modal" || strIncludes classes "dialog" then "modal"
  else if tag = "header" || strIncludes id "header" then "header"
  else if tag = "footer" || strIncludes id "footer" then "footer"
  else if tag = "aside" || strIncludes id "sidebar" then "sidebar"
  else "container"

/-- A ComponentRecord of the report. -/
structure ComponentRec where
  name : String
  tag : String
  id : Option String
  classes : List String
  signature : String
  childCount : Nat
  hasInteractiveElements : Bool
  estimatedType : String
deriving DecidableEq, Repr

/-- The record pushed for a component-like node. -/
def mkComponentRec (n : Node) : ComponentRec :=
  { name := generateComponentName n
    tag := n.tag
    id := n.id
    classes := n.classes
    signature := generateComponentSignature n
    childCount := n.children.length
    hasInteractiveElements := hasInteractiveElements n
    estimatedType := estimateComponentType n }

mutual

/-- Traversal of UIAnalyzer.analyzeComponentStructure: push a record for
every component-like node, in pre-order. -/
def componentScan : Node → List ComponentRec
  | n@(.mk _ _ _ _ _ _ _ _ ch) =>
    (if isComponentLike n then [mkComponentRec n] else []) ++ componentScanList ch

def componentScanList : List Node → List ComponentRec
  | [] => []
  | c :: cs => componentScan c ++ componentScanList cs

end

/-- UIAnalyzer.analyzeComponentStructure with the possibly-null domData. -/
def analyzeComponentStructure : Option Node → List ComponentRec
  | none => []
  | some t => componentScan t

/-- A layout descriptor as returned by detectLayout. -/
inductive Layout where
  | flex (direction : String) (justifyContent alignItems gap : Option String)
  | grid (columns rows gap : Option String)
  | block (width height : Option String)
deriving DecidableEq, Repr

/-- A LayoutRecord of the report. -/
structure LayoutRec where
  tag : String
  id : Option String
  classes : List String
  layout : Layout
  childCount : Nat
deriving DecidableEq, Repr

/-- The detectLayout helper of UIAnalyzer.analyzeLayoutPatterns. -/
def detectLayout (n : Node) : Option Layout :=
  let display := n.styles.bind (·.display)
  if display = some "flex" then
    some (.flex (orDefault (n.styles.bind (·.flexDirection)) "row")
      (n.styles.bind (·.justifyContent)) (n.styles.bind (·.alignItems))
      (n.styles.bind (·.gap)))
  else if display = some "grid" then
    some (.grid (n.styles.bind (·.gridTemplateColumns))
      (n.styles.bind (·.gridTemplateRows)) (n.styles.bind (·.gap)))
  else if display = some "block" || display = some "inline-block" then
    some (.block (n.styles.bind (·.width)) (n.styles.bind (·.height)))
  else none

mutual

/-- Traversal of UIAnalyzer.analyzeLayoutPatterns. -/
def layoutScan : Node → List LayoutRec
  | n@(.mk _ _ _ _ _ _ _ _ ch) =>
    (match detectLayout n with
     | some l => [{ tag := n.tag, id := n.id, classes := n.classes, layout := l,
                    childCount := n.children.length }]
     | none => []) ++ layoutScanList ch

def layoutScanList : List Node → List LayoutRec
  | [] => []
  | c :: cs => layoutScan c ++ layoutScanList cs

end

/-- UIAnalyzer.analyzeLayoutPatterns with the possibly-null domData. -/
def analyzeLayoutPatterns : Option Node → List LayoutRec
  | none => []
  | some t => layoutScan t

/-- The six token categories of UIAnalyzer.extractDesignTokens. -/
inductive TokenCat where
  | colors | fontSizes | fontWeights | spacing | borderRadii | shadows
deriving DecidableEq, Repr

/-- The style values a single node contributes, in the statement order of
the source: backgroundColor (unless the transparent literal), color,
fontSize, fontWeight, padding, margin, borderRadius (unless "0px"),
boxShadow (unless "none"); absent or empty (falsy) values contribute
nothing, as does an absent styles object. -/
def styleEmissions (n : Node) : List (TokenCat × String) :=
  match n.styles with
  | none => []
  | some st =>
    (match st.backgroundColor with
     | some v => if v ≠ "" ∧ v ≠ "rgba(0, 0, 0, 0)" then [(.colors, v)] else []
     | none => []) ++
    (match st.color with
     | some v => if v ≠ "" then [(.colors, v)] else []
     | none => []) ++
    (match st.fontSize with
     | some v => if v ≠ "" then [(.fontSizes, v)] else []
     | none => []) ++
    (match st.fontWeight with
     | some v => if v ≠ "" then [(.fontWeights, v)] else []
     | none => []) ++
    (match st.padding with
     | some v => if v ≠ "" then [(.spacing, v)] else []
     | none => []) ++
    (match st.margin with
     | some v => if v ≠ "" then [(.spacing, v)] else []
     | none => []) ++
    (match st.borderRadius with
     | some v => if v ≠ "" ∧ v ≠ "0px" then [(.borderRadii, v)] else []
     | none => []) ++
    (match st.boxShadow with
     | some v => if v ≠ "" ∧ v ≠ "none" then [(.shadows, v)] else []
     | none => [])

mutual

/-- The interleaved stream of Set.add calls performed by the traversal of
UIAnalyzer.extractDesignTokens, in traversal order. -/
def tokenStream : Node → List (TokenCat × String)
  | n@(.mk _ _ _ _ _ _ _ _ ch) => styleEmissions n ++ tokenStreamList ch

def tokenStreamList : List Node → List (TokenCat × String)
  | [] => []
  | c :: cs => tokenStream c ++ tokenStreamList cs

end

/-- The DesignTokenPalette: Array.from of each of the six Sets, so each
list holds distinct values in first-insertion order. -/
structure Palette where
  colors : List String
  fontSizes : List String
  fontWeights : List String
  spacing : List String
  borderRadii : List String
  shadows : List String
deriving DecidableEq, Repr

def emptyPalette : Palette := ⟨[], [], [], [], [], []⟩

/-- Set.add on an insertion-ordered set represented as a duplicate-free
list. -/
def insertUnique (l : List String) (v : String) : List String :=
  if v ∈ l then l else l ++ [v]

/-- One Set.add of the token traversal, dispatched to its category. -/
def addToken (p : Palette) (e : TokenCat × String) : Palette :=
  match e.1 with
  | .colors => { p with colors := insertUnique p.colors e.2 }
  | .fontSizes => { p with fontSizes := insertUnique p.fontSizes e.2 }
  | .fontWeights => { p with fontWeights := insertUnique p.fontWeights e.2 }
  | .spacing => { p with spacing := insertUnique p.spacing e.2 }
  | .borderRadii => { p with borderRadii := insertUnique p.borderRadii e.2 }
  | .shadows => { p with shadows := insertUnique p.shadows e.2 }

/-- UIAnalyzer.extractDesignTokens with the possibly-null domData. -/
def extractDesignTokens (domData : Option Node) : Palette :=
  match domData with
  | none => emptyPalette
  | some t => (tokenStream t).foldl addToken emptyPalette

/-- An example descriptor inside a repeated-pattern entry. -/
structure ExampleRec where
  tag : String
  id : Option String
  classes : List String
deriving DecidableEq, Repr

/-- The value stored under a signature in repeatedPatterns. -/
structure PatternEntry where
  count : Nat
  examples : List ExampleRec
deriving DecidableEq, Repr

/-- Update of the nodeSignatures object: an existing key keeps its position
and appends the node to its group; a new key is appended at the end
(JavaScript object insertion order). -/
def upsertSig : List (String × List Node) → String → Node → List (String × List Node)
  | [], s, n => [(s, [n])]
  | (k, v) :: rest, s, n =>
    if k = s then (k, v ++ [n]) :: rest else (k, v) :: upsertSig rest s n

mutual

/-- The accumulation traversal of UIAnalyzer.detectRepeatedPatterns:
every node is entered into nodeSignatures under its signature, node before
children. -/
def sigCollect (acc : List (String × List Node)) : Node → List (String × List Node)
  | n@(.mk _ _ _ _ _ _ _ _ ch) =>
    sigCollectList (upsertSig acc (generateComponentSignature n) n) ch

def sigCollectList (acc : List (String × List Node)) : List Node → List (String × List Node)
  | [] => acc
  | c :: cs => sigCollectList (sigCollect acc c) cs

end

def exampleOf (n : Node) : ExampleRec := ⟨n.tag, n.id, n.classes⟩

/-- UIAnalyzer.detectRepeatedPatterns with the possibly-null domData:
groups with more than one node become entries with their count and up to
three example descriptors. -/
def detectRepeatedPatterns (domData : Option Node) : List (String × PatternEntry) :=
  match domData with
  | none => []
  | some t =>
    (sigCollect [] t).filterMap (fun kv =>
      if kv.2.length > 1 then some (kv.1, ⟨kv.2.length, (kv.2.take 3).map exampleOf⟩)
      else none)

/-- A SectionRecord of the report. -/
structure SectionRec where
  tag : String
  id : Option String
  classes : List String
  rect : Rect
  childCount : Nat
  purpose : String
deriving DecidableEq, Repr

/-- UIAnalyzer.identifySectionPurpose. -/
def identifySectionPurpose (n : Node) : String :=
  let tag := lowerStr n.tag
  let classes := lowerStr (joinSep " " n.classes)
  let id := lowerStr (n.id.getD "")
  if tag = "header" || strIncludes id "header" then "header"
  else if tag = "nav" || strIncludes classes "nav" then "navigation"
  else if tag = "main" || strIncludes id "main" then "main-content"
  else if tag = "aside" || strIncludes id "sidebar" then "sidebar"
  else if tag = "footer" || strIncludes id "footer" then "footer"
  else if tag = "section" || tag = "article" then "content-section"
  else "unknown"

/-- The sectionSelectors array of UIAnalyzer.identifyPageSections, compared
verbatim against node tags (the three bracketed attribute selectors can
therefore never equal a real tag name). -/
def sectionSelectors : List String :=
  ["header", "nav", "main", "section", "article", "aside", "footer",
   "[role=\"navigation\"]", "[role=\"main\"]", "[role=\"contentinfo\"]"]

def mkSectionRec (n : Node) : SectionRec :=
  { tag := n.tag
    id := n.id
    classes := n.classes
    rect := n.rect
    childCount := n.children.length
    purpose := identifySectionPurpose n }

mutual

/-- The depth-guarded traversal of UIAnalyzer.identifyPageSections: a call
at depth greater than 10 returns at once. -/
def sectionScan : Node → Nat → List SectionRec
  | n@(.mk _ _ _ _ _ _ _ _ ch), depth =>
    if depth > 10 then []
    else
      (if sectionSelectors.contains n.tag then [mkSectionRec n] else []) ++
        sectionScanList ch (depth + 1)

def sectionScanList : List Node → Nat → List SectionRec
  | [], _ => []
  | c :: cs, d => sectionScan c d ++ sectionScanList cs d

end

/-- UIAnalyzer.identifyPageSections with the possibly-null domData. -/
def identifyPageSections (domData : Option Node) : List SectionRec :=
  match domData with
  | none => []
  | some t => sectionScan t 0

/-- The AnalysisReport assembled by UIAnalyzer.generateAnalysisReport; the
timestamp field holds the new Date().toISOString() value taken when the
report is generated, passed here as the argument now. -/
structure Report where
  components : List ComponentRec
  layouts : List LayoutRec
  designTokens : Palette
  repeatedPatterns : List (String × PatternEntry)
  sections : List SectionRec
  timestamp : String
deriving DecidableEq, Repr

/-- UIAnalyzer.generateAnalysisReport, with the clock reading made an
explicit input. -/
def generateAnalysisReport (domData : Option Node) (now : String) : Report :=
  { components := analyzeComponentStructure domData
    layouts := analyzeLayoutPatterns domData
    designTokens := extractDesignTokens domData
    repeatedPatterns := detectRepeatedPatterns domData
    sections := identifyPageSections domData
    timestamp := now }

/-- A navigation descriptor of ComponentMapper.mapNavigationComponents. -/
structure NavRec where
  name : String
  originalTag : String
  classes : List String
  reactComponent : String
  layout : String
deriving DecidableEq, Repr

/-- ComponentMapper.detectLayoutType: a missing (falsy) section yields
flex; otherwise the keyword scan of the space-joined lowercased classes,
grid before flex, with fallback block. -/
def detectLayoutType (s? : Option SectionRec) : String :=
  match s? with
  | none => "flex"
  | some sec =>
    let classes := lowerStr (joinSep " " sec.classes)
    if strIncludes classes "grid" then "grid"
    else if strIncludes classes "flex" then "flex"
    else "block"

/-- ComponentMapper.mapNavigationComponents over the sections of the
report: every section whose purpose is navigation becomes a Navigation
descriptor. -/
def mapNavigationComponents (sections : List SectionRec) : List NavRec :=
  (sections.filter (fun s => s.purpose = "navigation")).map (fun s =>
    { name := orDefault s.id "Navigation"
      originalTag := s.tag
      classes := s.classes
      reactComponent := "Navigation"
      layout := detectLayoutType (some s) })

/-! Specification-side definitions used to state the theorems. -/

/-- Truncation of a tree at a depth bound: prune d keeps exactly the nodes
at depth at most d below (and including) the given node. -/
def prune : Nat → Node → Node
  | 0, .mk t i c a r s v iv _ => .mk t i c a r s v iv []
  | d + 1, .mk t i c a r s v iv ch => .mk t i c a r s v iv (ch.map (fun n => prune d n))

mutual

/-- The nodes the depth-guarded section traversal actually visits when
started at the given depth, in visiting order. -/
def boundedPreorder : Node → Nat → List Node
  | n@(.mk _ _ _ _ _ _ _ _ ch), d =>
    if d > 10 then [] else n :: boundedPreorderList ch (d + 1)

def boundedPreorderList : List Node → Nat → List Node
  | [], _ => []
  | c :: cs, d => boundedPreorder c d ++ boundedPreorderList cs d

end

/-- The step a pre-order traversal performs on the nodeSignatures
accumulator for a single node. -/
def sigStep (acc : List (String × List Node)) (n : Node) : List (String × List Node) :=
  upsertSig acc (generateComponentSignature n) n

/-- Association-list lookup with decidable string equality (the semantics
of reading a JavaScript object property that was set, first hit wins). -/
def lookupA {α : Type} : List (String × α) → String → Option α
  | [], _ => none
  | (k, v) :: rest, s => if k = s then some v else lookupA rest s

/-- A tag that cannot collide with the colon separators of a signature. -/
def tagOk (t : String) : Prop := ':' ∉ t.data

/-- Class names that cannot collide with the separators of a signature:
non-empty and free of dots and colons. -/
def classesOk (cls : List String) : Prop :=
  ∀ s ∈ cls, s.data ≠ [] ∧ ∀ c ∈ s.data, c ≠ '.' ∧ c ≠ ':'

instance : DecidablePred tagOk := fun t => by unfold tagOk; infer_instance

instance : DecidablePred classesOk := fun cls => by unfold classesOk; infer_instance

/-! Concrete snapshot inputs used by counterexamples and witnesses. -/

/-- A zero rectangle (geometry is irrelevant to every claim). -/
def rect0 : Rect := ⟨0, 0, 0, 0, 0, 0, 0, 0⟩

/-- A childless button node carrying the classes btn and btn-primary. -/
def btnNode : Node := .mk "button" none ["btn", "btn-primary"] [] rect0 none true true []

/-- A node whose class list is the single class name a.b. -/
def dotClassNode : Node := .mk "div" none ["a.b"] [] rect0 none true false []

/-- A node whose class list is the two class names a and b. -/
def twoClassNode : Node := .mk "div" none ["a", "b"] [] rect0 none true false []

/-- A div with a role attribute of navigation (the snapshot shape of a
role-equivalent navigation landmark). -/
def roleNavDiv : Node := .mk "div" none [] [("role", "navigation")] rect0 none true false []

/-- A childless section element. -/
def plainSection : Node := .mk "section" none [] [] rect0 none true false []

/-- A section record for a nav element whose classes carry neither the
grid nor the flex keyword. -/
def navSectionTopbar : SectionRec := ⟨"nav", none, ["topbar"], rect0, 0, "navigation"⟩

/-- A deep chain: chainNode k is a nest of k div levels with ids, ending
in an interactive flex-styled button that carries a color style; the
button sits at depth k below the root. -/
def chainNode : Nat → Node
  | 0 => .mk "button" (some "x") ["x"] [] rect0
      (some { display := some "flex", color := some "#123456" }) true true []
  | k + 1 => .mk "div" (some "x") ["x"] [] rect0 none true false [chainNode k]

/-- Reference decimal digit listing of a natural number, most significant
digit first (the digits Nat.repr produces). -/
def decDigits (n : Nat) : List Char :=
  if n < 10 then [Nat.digitChar n]
  else decDigits (n / 10) ++ [Nat.digitChar (n % 10)]
termination_by n
decreasing_by exact Nat.div_lt_self (by omega) (by omega)

/-! Theorems. -/

/-- C10: on a null input tree, generateAnalysisReport returns the empty
report (no components, layouts or sections, all six token categories
empty, no repeated patterns); the embedding is total, so no error can be
raised. -/
theorem generateAnalysisReport_null (now : String) :
    generateAnalysisReport none now =
      { components := []
        layouts := []
        designTokens := ⟨[], [], [], [], [], []⟩
        repeatedPatterns := []
        sections := []
        timestamp := now } := rfl

/-- C4, counterexample: two runs of generateAnalysisReport over the same
snapshot at different clock readings produce different report objects,
because the report embeds the generation timestamp. -/
theorem generateAnalysisReport_not_time_invariant :
    generateAnalysisReport (some btnNode) "2024-01-01T00:00:00.000Z" ≠
      generateAnalysisReport (some btnNode) "2024-01-01T00:00:00.001Z" := by decide

/-- C4, amended: the five analysis fields of the report (components,
layouts, designTokens, repeatedPatterns, sections) are pure functions of
the snapshot alone, identical across runs at different clock readings;
only the embedded timestamp field varies. -/
theorem generateAnalysisReport_core_deterministic (d : Option Node) (now1 now2 : String) :
    (generateAnalysisReport d now1).components = (generateAnalysisReport d now2).components ∧
    (generateAnalysisReport d now1).layouts = (generateAnalysisReport d now2).layouts ∧
    (generateAnalysisReport d now1).designTokens = (generateAnalysisReport d now2).designTokens ∧
    (generateAnalysisReport d now1).repeatedPatterns =
      (generateAnalysisReport d now2).repeatedPatterns ∧
    (generateAnalysisReport d now1).sections = (generateAnalysisReport d now2).sections :=
  ⟨rfl, rfl, rfl, rfl, rfl⟩

/-- C3, counterexample: the raw color #FFFFFF is not an exact key of the
color dictionary, yet mapColor maps it to a token (via normalization),
so exact lookup is not the only way a raw color obtains a token. -/
theorem mapColor_not_exact_only :
    colorEntries.lookup "#FFFFFF" = none ∧ mapColor "#FFFFFF" = some "white" := by decide

/-- C1, counterexample: a node with the single class a.b and a node with
the two classes a and b have different class lists but identical
signatures (same tag, same child count), so differing triples do not
always produce different signature strings. -/
theorem signature_not_injective :
    generateComponentSignature dotClassNode = generateComponentSignature twoClassNode ∧
    dotClassNode.classes ≠ twoClassNode.classes ∧
    dotClassNode.tag = twoClassNode.tag ∧
    dotClassNode.children.length = twoClassNode.children.length := by decide

/-- C2, counterexample: the raw value 10px (equidistant from the 8px and
12px entries) resolves to the token 2 of the earlier 8px entry, not to
the token 3 claimed. -/
theorem mapSpacing_ten_px : mapSpacing "10px" = some "2" ∧ ("2" : String) ≠ "3" := by decide

/-- C9, counterexample: a navigation section whose classes carry neither
the grid nor the flex keyword gets layout type block, not the claimed
default flex. -/
theorem navigation_layout_default_block :
    (mapNavigationComponents [navSectionTopbar]).map NavRec.layout = ["block"] ∧
    ("block" : String) ≠ "flex" := by decide

/-- C7, counterexample: a div carrying a role attribute of navigation is
not reported as a section (the selector strings are compared against the
tag, and the snapshot does not even record roles), while a section element
is reported although its tag is none of header, nav, main, aside, footer. -/
theorem sections_role_equivalents_missing :
    identifyPageSections (some roleNavDiv) = [] ∧
    roleNavDiv.attributes = [("role", "navigation")] ∧
    identifyPageSections (some plainSection) =
      [⟨"section", none, [], rect0, 0, "content-section"⟩] ∧
    plainSection.tag ∉ (["header", "nav", "main", "aside", "footer"] : List String) := by decide

/-- C8, counterexample: the token extraction walk has no depth bound: a
color contributed by a node 25 levels deep is present in the palette, and
truncating the tree even at the snapshot capture bound of 20 changes the
result, so this branch is not truncated. -/
theorem extractDesignTokens_unbounded_depth :
    extractDesignTokens (some (chainNode 25)) ≠
      extractDesignTokens (some (prune 20 (chainNode 25))) := by decide

theorem componentScanList_eq (cs : List Node)
    (h : ∀ c ∈ cs,
      componentScan c = ((preorder c).filter (fun n => isComponentLike n)).map mkComponentRec) :
    componentScanList cs =
      ((preorderList cs).filter (fun n => isComponentLike n)).map mkComponentRec := by
  induction cs with
  | nil => rfl
  | cons c cs ih =>
    simp only [componentScanList, preorderList, List.filter_append, List.map_append]
    rw [h c (by simp), ih (fun x hx => h x (by simp [hx]))]

/-- The component scan records exactly the component-like nodes of the
pre-order traversal, in order. -/
theorem componentScan_eq (t : Node) :
    componentScan t = ((preorder t).filter (fun n => isComponentLike n)).map mkComponentRec := by
  induction t using Node.strongInduction with
  | _ n ih =>
    cases n with
    | mk tg i cls a r s v iv ch =>
      have hch : ∀ c ∈ ch,
          componentScan c = ((preorder c).filter (fun n => isComponentLike n)).map mkComponentRec :=
        fun c hc => ih c (by simpa [Node.children] using hc)
      simp only [componentScan, preorder, List.filter_cons]
      rw [componentScanList_eq ch hch]
      by_cases hg : isComponentLike (.mk tg i cls a r s v iv ch) <;> simp [hg]

theorem sectionScanList_eq (cs : List Node) (d : Nat)
    (h : ∀ c ∈ cs, ∀ d : Nat, sectionScan c d =
      ((boundedPreorder c d).filter (fun n => sectionSelectors.contains n.tag)).map mkSectionRec) :
    sectionScanList cs d =
      ((boundedPreorderList cs d).filter
        (fun n => sectionSelectors.contains n.tag)).map mkSectionRec := by
  induction cs with
  | nil => rfl
  | cons c cs ih =>
    simp only [sectionScanList, boundedPreorderList, List.filter_append, List.map_append]
    rw [h c (by simp) d, ih (fun x hx => h x (by simp [hx]))]

/-- The section scan records exactly the nodes of the depth-bounded
pre-order traversal whose tag occurs verbatim in sectionSelectors. -/
theorem sectionScan_eq (t : Node) : ∀ d : Nat,
    sectionScan t d =
      ((boundedPreorder t d).filter (fun n => sectionSelectors.contains n.tag)).map
        mkSectionRec := by
  induction t using Node.strongInduction with
  | _ n ih =>
    cases n with
    | mk tg i cls a r s v iv ch =>
      intro d
      have hch : ∀ c ∈ ch, ∀ d : Nat, sectionScan c d =
          ((boundedPreorder c d).filter (fun n => sectionSelectors.contains n.tag)).map
            mkSectionRec :=
        fun c hc => ih c (by simpa [Node.children] using hc)
      simp only [sectionScan, boundedPreorder]
      by_cases hd : d > 10
      · simp [hd]
      · simp only [hd, if_false, List.filter_cons]
        rw [sectionScanList_eq ch (d + 1) hch]
        by_cases hg : (Node.mk tg i cls a r s v iv ch).tag ∈ sectionSelectors <;> simp [hg]

/-- C5: a node of the tree yields a ComponentRecord exactly when it has a
truthy id or a non-empty class list AND at least one child or an
interactive element in its subtree (the node itself included, as the
childless-button case shows); and a childless button node with classes
btn and btn-primary yields a record of estimated type button. -/
theorem component_eligibility_gate :
    (∀ t : Node, analyzeComponentStructure (some t) =
      ((preorder t).filter (fun n =>
        (truthy n.id || !n.classes.isEmpty) &&
          (!n.children.isEmpty || hasInteractiveElements n))).map mkComponentRec) ∧
    (analyzeComponentStructure (some btnNode)).map ComponentRec.estimatedType = ["button"] := by
  constructor
  · intro t
    have h := componentScan_eq t
    simpa [analyzeComponentStructure, isComponentLike] using h
  · decide

/-- C7, amended: the sections sequence contains exactly the nodes of the
depth-bounded traversal whose tag occurs verbatim in the selector list
header, nav, main, section, article, aside, footer plus three bracketed
role selector strings that can never equal a tag, so role-equivalents are
never captured and section and article elements are. -/
theorem sections_characterization (t : Node) :
    identifyPageSections (some t) =
      ((boundedPreorder t 0).filter (fun n => sectionSelectors.contains n.tag)).map
        mkSectionRec :=
  sectionScan_eq t 0

theorem sectionScanList_prune (cs : List Node) (d : Nat)
    (h : ∀ c ∈ cs, ∀ d : Nat, sectionScan (prune (11 - d) c) d = sectionScan c d) :
    sectionScanList (cs.map (fun c => prune (11 - d) c)) d = sectionScanList cs d := by
  induction cs with
  | nil => rfl
  | cons c cs ih =>
    simp only [List.map_cons, sectionScanList]
    rw [h c (by simp) d, ih (fun x hx => h x (by simp [hx]))]

/-- Truncating a tree below the section-scan bound does not change the
section scan: nodes deeper than the bound never influence its output. -/
theorem sectionScan_prune (t : Node) :
    ∀ d : Nat, sectionScan (prune (11 - d) t) d = sectionScan t d := by
  induction t using Node.strongInduction with
  | _ n ih =>
    cases n with
    | mk tg i cls a r s v iv ch =>
      intro d
      by_cases hd : d > 10
      · cases h11 : 11 - d with
        | zero => simp [prune, sectionScan, hd]
        | succ k => simp [prune, sectionScan, hd]
      · have h11 : 11 - d = (10 - d) + 1 := by omega
        rw [h11]
        simp only [prune, sectionScan, hd, if_false]
        refine congrArg₂ (· ++ ·) ?_ ?_
        · simp [mkSectionRec, identifySectionPurpose, Node.tag, Node.id, Node.classes,
            Node.rect, Node.children, List.length_map]
        · have h10 : 10 - d = 11 - (d + 1) := by omega
          rw [h10]
          exact sectionScanList_prune ch (d + 1)
            (fun c hc => ih c (by simpa [Node.children] using hc))

/-- C8, amended: only the section scan bounds its recursion depth — a
branch below its bound is truncated without affecting the rest — while the
component, layout, token and pattern scans have no depth bound: each of
them distinguishes a 25-deep chain from its truncation at the snapshot
capture bound of 20, so no branch is dropped there. -/
theorem recursion_bound_only_in_section_scan :
    (∀ t : Node, identifyPageSections (some (prune 11 t)) = identifyPageSections (some t)) ∧
    analyzeComponentStructure (some (chainNode 25)) ≠
      analyzeComponentStructure (some (prune 20 (chainNode 25))) ∧
    analyzeLayoutPatterns (some (chainNode 25)) ≠
      analyzeLayoutPatterns (some (prune 20 (chainNode 25))) ∧
    extractDesignTokens (some (chainNode 25)) ≠
      extractDesignTokens (some (prune 20 (chainNode 25))) ∧
    detectRepeatedPatterns (some (chainNode 25)) ≠
      detectRepeatedPatterns (some (prune 20 (chainNode 25))) := by
  refine ⟨fun t => ?_, by decide, by decide, by decide, by decide⟩
  have h := sectionScan_prune t 0
  simpa [identifyPageSections] using h

/-- C3, amended: color mapping has no nearest-match fallback, but it does
normalize: a raw color yields no token exactly when neither the raw string
nor its normalization (rgb triplets to lowercase hex, otherwise plain
lowercasing) is an exact key of the color dictionary. -/
theorem mapColor_none_iff (c : String) :
    mapColor c = none ↔
      colorEntries.lookup c = none ∧ colorEntries.lookup (normalizeColor c) = none := by
  unfold mapColor
  by_cases h : c = ""
  · subst h
    simp only [if_pos rfl]
    exact ⟨fun _ => ⟨by decide, by decide⟩, fun _ => rfl⟩
  · rw [if_neg h]
    cases h1 : colorEntries.lookup c <;> cases h2 : colorEntries.lookup (normalizeColor c) <;>
      simp [h1, h2]

/-- C9, amended: every navigation entry produced by the component mapper
takes its layout type from the keyword scan of its section's classes: grid
when they contain grid, flex when they contain flex, and block when
neither keyword is present. -/
theorem navigation_layout_keywords (sections : List SectionRec) (e : NavRec)
    (he : e ∈ mapNavigationComponents sections) :
    ∃ sec, sec ∈ sections ∧ sec.purpose = "navigation" ∧
      e.layout =
        (if strIncludes (lowerStr (joinSep " " sec.classes)) "grid" then "grid"
         else if strIncludes (lowerStr (joinSep " " sec.classes)) "flex" then "flex"
         else "block") := by
  simp only [mapNavigationComponents, List.mem_map, List.mem_filter] at he
  obtain ⟨sec, ⟨hmem, hpurp⟩, rfl⟩ := he
  exact ⟨sec, hmem, by simpa using hpurp, by simp [detectLayoutType]⟩

/-- Witness for navigation_layout_keywords at a concrete navigation
section without layout keywords. -/
theorem navigation_layout_keywords_witness :
    ∃ sec, sec ∈ [navSectionTopbar] ∧ sec.purpose = "navigation" ∧
      NavRec.layout ⟨"Navigation", "nav", ["topbar"], "Navigation", "block"⟩ =
        (if strIncludes (lowerStr (joinSep " " sec.classes)) "grid" then "grid"
         else if strIncludes (lowerStr (joinSep " " sec.classes)) "flex" then "flex"
         else "block") :=
  navigation_layout_keywords [navSectionTopbar]
    ⟨"Navigation", "nav", ["topbar"], "Navigation", "block"⟩ (by decide)

/-- The reduce of mapSpacing and mapFontSize picks an entry of minimal
pixel distance, and every entry listed strictly earlier has strictly
greater distance (on ties the earlier entry wins). -/
theorem foldl_closerStep_spec (px : Nat) :
    ∀ (t : List (String × String)) (h : String × String),
      (∃ i, (h :: t).get? i = some (t.foldl (closerStep px) h) ∧
        ∀ j, j < i → ∀ e, (h :: t).get? j = some e →
          pxDist (parsePxKey (t.foldl (closerStep px) h).1) px < pxDist (parsePxKey e.1) px) ∧
      ∀ e ∈ h :: t,
        pxDist (parsePxKey (t.foldl (closerStep px) h).1) px ≤ pxDist (parsePxKey e.1) px := by
  intro t
  induction t with
  | nil =>
    intro h
    refine ⟨⟨0, rfl, fun j hj => by omega⟩, ?_⟩
    intro e he
    rw [List.mem_singleton] at he
    subst he
    exact Nat.le_refl _
  | cons b t ih =>
    intro h
    rw [List.foldl_cons]
    by_cases hc : pxDist (parsePxKey b.1) px < pxDist (parsePxKey h.1) px
    · have hstep : closerStep px h b = b := by simp [closerStep, hc]
      rw [hstep]
      obtain ⟨⟨i, hi, hstrict⟩, hmin⟩ := ih b
      have hrb : pxDist (parsePxKey (t.foldl (closerStep px) b).1) px ≤
          pxDist (parsePxKey b.1) px := hmin b (List.mem_cons_self b t)
      refine ⟨⟨i + 1, by simpa using hi, ?_⟩, ?_⟩
      · intro j hj e hget
        cases j with
        | zero =>
          have he : h = e := by simpa using hget
          subst he
          exact Nat.lt_of_le_of_lt hrb hc
        | succ j => exact hstrict j (by omega) e (by simpa using hget)
      · intro e he
        rcases List.mem_cons.mp he with he | he
        · subst he
          exact Nat.le_of_lt (Nat.lt_of_le_of_lt hrb hc)
        · exact hmin e he
    · have hstep : closerStep px h b = h := by simp [closerStep, hc]
      rw [hstep]
      obtain ⟨⟨i, hi, hstrict⟩, hmin⟩ := ih h
      have hhb : pxDist (parsePxKey h.1) px ≤ pxDist (parsePxKey b.1) px :=
        Nat.le_of_not_lt hc
      have hrh : pxDist (parsePxKey (t.foldl (closerStep px) h).1) px ≤
          pxDist (parsePxKey h.1) px := hmin h (List.mem_cons_self h t)
      cases i with
      | zero =>
        refine ⟨⟨0, by simpa using hi, fun j hj => by omega⟩, ?_⟩
        intro e he
        rcases List.mem_cons.mp he with he | he
        · subst he; exact hrh
        · rcases List.mem_cons.mp he with he | he
          · subst he; exact Nat.le_trans hrh hhb
          · exact hmin e (List.mem_cons_of_mem h he)
      | succ i =>
        have hrh2 : pxDist (parsePxKey (t.foldl (closerStep px) h).1) px <
            pxDist (parsePxKey h.1) px := hstrict 0 (by omega) h rfl
        refine ⟨⟨i + 2, by simpa using hi, ?_⟩, ?_⟩
        · intro j hj e hget
          cases j with
          | zero =>
            have he : h = e := by simpa using hget
            subst he
            exact hrh2
          | succ j =>
            cases j with
            | zero =>
              have he : b = e := by simpa using hget
              subst he
              exact Nat.lt_of_lt_of_le hrh2 hhb
            | succ j => exact hstrict (j + 1) (by omega) e (by simpa using hget)
        · intro e he
          rcases List.mem_cons.mp he with he | he
          · subst he; exact hrh
          · rcases List.mem_cons.mp he with he | he
            · subst he; exact Nat.le_trans hrh hhb
            · exact hmin e (List.mem_cons_of_mem h he)

/-- C2, amended: a raw spacing value with no exact dictionary key whose
leading pixel magnitude parses resolves to the entry of smallest absolute
pixel distance, ties broken in favor of the earlier entry of the
dictionary's declared order; concretely both 9px and the equidistant 10px
resolve to the token 2 of the 8px entry. -/
theorem spacing_quantization :
    (∀ (value : String) (px : Nat),
      spacingEntries.lookup value = none → findPx value = some px →
      ∃ key tok, mapSpacing value = some tok ∧
        (∃ i, spacingEntries.get? i = some (key, tok) ∧
          ∀ j, j < i → ∀ e, spacingEntries.get? j = some e →
            pxDist (parsePxKey key) px < pxDist (parsePxKey e.1) px) ∧
        ∀ e ∈ spacingEntries, pxDist (parsePxKey key) px ≤ pxDist (parsePxKey e.1) px) ∧
    mapSpacing "9px" = some "2" ∧ mapSpacing "10px" = some "2" := by
  refine ⟨?_, by decide, by decide⟩
  intro value px h1 h2
  have hne : value ≠ "" := by
    intro hv
    rw [hv] at h2
    simp [findPx, findPxAux] at h2
  have hmap : mapSpacing value = closestFrom px spacingEntries := by
    unfold mapSpacing
    rw [if_neg hne, h1, h2]
  obtain ⟨⟨i, hi, hstrict⟩, hmin⟩ :=
    foldl_closerStep_spec px spacingEntries.tail spacingEntries.head!
  refine ⟨(spacingEntries.tail.foldl (closerStep px) spacingEntries.head!).1,
    (spacingEntries.tail.foldl (closerStep px) spacingEntries.head!).2, ?_, ⟨i, ?_, ?_⟩, ?_⟩
  · rw [hmap]; rfl
  · exact hi
  · exact hstrict
  · exact hmin

/-- Witness for the general clause of spacing_quantization at the raw
value 9px. -/
theorem spacing_quantization_witness :
    spacingEntries.lookup "9px" = none ∧ findPx "9px" = some 9 ∧
    (∃ key tok, mapSpacing "9px" = some tok ∧
      (∃ i, spacingEntries.get? i = some (key, tok) ∧
        ∀ j, j < i → ∀ e, spacingEntries.get? j = some e →
          pxDist (parsePxKey key) 9 < pxDist (parsePxKey e.1) 9) ∧
      ∀ e ∈ spacingEntries, pxDist (parsePxKey key) 9 ≤ pxDist (parsePxKey e.1) 9) :=
  ⟨by decide, by decide, spacing_quantization.1 "9px" 9 (by decide) (by decide)⟩

theorem lookupA_upsertSig (acc : List (String × List Node)) (s k : String) (n : Node) :
    lookupA (upsertSig acc k n) s =
      if s = k then some (((lookupA acc s).getD []) ++ [n]) else lookupA acc s := by
  induction acc with
  | nil =>
    by_cases hs : s = k
    · simp [upsertSig, lookupA, hs]
    · simp [upsertSig, lookupA, hs, Ne.symm hs]
  | cons kv rest ih =>
    obtain ⟨k0, v⟩ := kv
    by_cases hk : k0 = k
    · by_cases hs : s = k
      · simp [upsertSig, lookupA, hk, hs]
      · simp [upsertSig, lookupA, hk, hs, Ne.symm hs]
    · by_cases hs : k0 = s
      · have hsk : ¬ s = k := by rw [← hs]; exact hk
        simp [upsertSig, lookupA, hk, hs, hsk]
      · simp [upsertSig, lookupA, hk, hs, ih]

theorem lookupA_eq_none_of_not_mem {α : Type} (l : List (String × α)) (s : String)
    (h : s ∉ l.map Prod.fst) : lookupA l s = none := by
  induction l with
  | nil => rfl
  | cons kv rest ih =>
    simp only [List.map_cons, List.mem_cons] at h
    push_neg at h
    obtain ⟨k0, v⟩ := kv
    have : ¬ k0 = s := fun hk => h.1 (by simp [hk])
    simp [lookupA, this, ih h.2]

theorem keys_upsertSig (acc : List (String × List Node)) (k : String) (n : Node) :
    (upsertSig acc k n).map Prod.fst =
      if k ∈ acc.map Prod.fst then acc.map Prod.fst else acc.map Prod.fst ++ [k] := by
  induction acc with
  | nil => simp [upsertSig]
  | cons kv rest ih =>
    obtain ⟨k0, v⟩ := kv
    by_cases hk : k0 = k
    · subst hk; simp [upsertSig]
    · have : ¬ k = k0 := fun h => hk h.symm
      by_cases hmem : k ∈ rest.map Prod.fst <;> simp [upsertSig, hk, this, hmem, ih]

theorem keys_nodup_upsertSig (acc : List (String × List Node)) (k : String) (n : Node)
    (h : (acc.map Prod.fst).Nodup) : ((upsertSig acc k n).map Prod.fst).Nodup := by
  rw [keys_upsertSig]
  by_cases hmem : k ∈ acc.map Prod.fst
  · simpa [hmem] using h
  · simp only [hmem, if_false]
    rw [List.nodup_append]
    exact ⟨h, List.nodup_singleton k, by simpa [List.disjoint_singleton] using hmem⟩

theorem keys_nodup_foldl_sigStep (l : List Node) :
    ∀ acc : List (String × List Node), (acc.map Prod.fst).Nodup →
      ((l.foldl sigStep acc).map Prod.fst).Nodup := by
  induction l with
  | nil => exact fun acc h => h
  | cons m l ih =>
    intro acc h
    exact ih (sigStep acc m) (keys_nodup_upsertSig acc _ m h)

theorem lookupA_foldl_sigStep (l : List Node) :
    ∀ (acc : List (String × List Node)) (s : String),
      lookupA (l.foldl sigStep acc) s =
        (if (lookupA acc s).isSome ∨
            0 < (l.filter (fun m => generateComponentSignature m = s)).length then
          some (((lookupA acc s).getD []) ++
            l.filter (fun m => generateComponentSignature m = s))
        else none) := by
  induction l with
  | nil =>
    intro acc s
    cases h : lookupA acc s <;> simp [h]
  | cons m l ih =>
    intro acc s
    rw [List.foldl_cons, ih (sigStep acc m) s]
    have hup : lookupA (sigStep acc m) s =
        if s = generateComponentSignature m then some (((lookupA acc s).getD []) ++ [m])
        else lookupA acc s := lookupA_upsertSig acc s _ m
    by_cases hs : generateComponentSignature m = s
    · have hs2 : s = generateComponentSignature m := hs.symm
      rw [hup, if_pos hs2]
      simp [List.filter_cons, hs]
    · have hs2 : ¬ s = generateComponentSignature m := fun h => hs h.symm
      rw [hup, if_neg hs2]
      simp [List.filter_cons, hs]

theorem sigCollectList_eq (cs : List Node)
    (h : ∀ c ∈ cs, ∀ acc : List (String × List Node),
      sigCollect acc c = (preorder c).foldl sigStep acc) :
    ∀ acc : List (String × List Node),
      sigCollectList acc cs = (preorderList cs).foldl sigStep acc := by
  induction cs with
  | nil => intro acc; rfl
  | cons c cs ih =>
    intro acc
    simp only [sigCollectList, preorderList, List.foldl_append]
    rw [h c (by simp) acc, ih (fun x hx => h x (by simp [hx]))]

/-- The accumulation traversal of detectRepeatedPatterns is the fold of the
per-node update over the pre-order listing. -/
theorem sigCollect_eq (t : Node) :
    ∀ acc : List (String × List Node), sigCollect acc t = (preorder t).foldl sigStep acc := by
  induction t using Node.strongInduction with
  | _ n ih =>
    cases n with
    | mk tg i cls a r s v iv ch =>
      intro acc
      have hch : ∀ c ∈ ch, ∀ acc : List (String × List Node),
          sigCollect acc c = (preorder c).foldl sigStep acc :=
        fun c hc => ih c (by simpa [Node.children] using hc)
      simp only [sigCollect, preorder, List.foldl_cons]
      exact sigCollectList_eq ch hch _

theorem lookupA_patternFilter (gs : List (String × List Node)) :
    ∀ s : String, (gs.map Prod.fst).Nodup →
      lookupA (gs.filterMap (fun kv =>
        if kv.2.length > 1 then
          some (kv.1, PatternEntry.mk kv.2.length ((kv.2.take 3).map exampleOf))
        else none)) s =
        (match lookupA gs s with
         | some v => if v.length > 1 then
             some (PatternEntry.mk v.length ((v.take 3).map exampleOf))
           else none
         | none => none) := by
  induction gs with
  | nil => intro s _; rfl
  | cons kv rest ih =>
    intro s hnd
    obtain ⟨k, v⟩ := kv
    simp only [List.map_cons, List.nodup_cons] at hnd
    obtain ⟨hk, hnd⟩ := hnd
    rw [List.filterMap_cons]
    by_cases hs : k = s
    · by_cases hlen : v.length > 1
      · simp [hlen, lookupA, hs]
      · have hnone : lookupA rest s = none := by
          rw [← hs] at *
          exact lookupA_eq_none_of_not_mem rest k hk
        simp only [hlen, if_neg, ite_false, ih s hnd, hnone]
        simp only [lookupA, hs, if_pos, hlen, ite_false]
    · by_cases hlen : v.length > 1
      · simp only [hlen, ite_true]
        simp only [lookupA, hs, ite_false, ih s hnd]
      · simp only [hlen, ite_false, ih s hnd]
        simp only [lookupA, hs, ite_false]

/-- C6: a signature is a key of repeatedPatterns exactly when more than one
node of the tree bears it; the stored count is the exact number of such
nodes, and the examples are the descriptors of the first min(3, count) such
nodes in pre-order traversal order. -/
theorem repeated_patterns_characterization (t : Node) (s : String) :
    lookupA (detectRepeatedPatterns (some t)) s =
      (if 1 < ((preorder t).filter (fun m => generateComponentSignature m = s)).length then
        some (PatternEntry.mk
          ((preorder t).filter (fun m => generateComponentSignature m = s)).length
          ((((preorder t).filter (fun m => generateComponentSignature m = s)).take 3).map
            exampleOf))
      else none) := by
  have hcollect : sigCollect [] t = (preorder t).foldl sigStep [] := sigCollect_eq t []
  have hnd : (((preorder t).foldl sigStep []).map Prod.fst).Nodup :=
    keys_nodup_foldl_sigStep (preorder t) [] (by simp)
  have hpatterns : detectRepeatedPatterns (some t) =
      ((preorder t).foldl sigStep []).filterMap (fun kv =>
        if kv.2.length > 1 then
          some (kv.1, PatternEntry.mk kv.2.length ((kv.2.take 3).map exampleOf))
        else none) := by
    simp only [detectRepeatedPatterns, hcollect]
  rw [hpatterns, lookupA_patternFilter _ s hnd, lookupA_foldl_sigStep (preorder t) [] s]
  by_cases hpos : 0 < ((preorder t).filter (fun m => generateComponentSignature m = s)).length
  · by_cases hgt : 1 < ((preorder t).filter (fun m => generateComponentSignature m = s)).length <;>
      simp [lookupA, hpos, hgt]
  · simp only [lookupA, Option.isSome_none, Bool.false_eq_true, false_or, hpos, if_false]
    have : ¬ 1 < ((preorder t).filter (fun m => generateComponentSignature m = s)).length := by
      omega
    simp [this]

theorem toDigitsCore_eq_decDigits :
    ∀ fuel n ds, n < fuel → Nat.toDigitsCore 10 fuel n ds = decDigits n ++ ds := by
  intro fuel
  induction fuel with
  | zero => intro n ds h; omega
  | succ fuel ih =>
    intro n ds h
    by_cases h0 : n / 10 = 0
    · have hn : n < 10 := by
        have := (Nat.div_eq_zero_iff (by omega : 0 < 10)).mp h0
        omega
      rw [decDigits]
      simp [Nat.toDigitsCore, h0, hn, Nat.mod_eq_of_lt hn]
    · have hn : ¬ n < 10 := by
        intro hlt
        exact h0 ((Nat.div_eq_zero_iff (by omega : 0 < 10)).mpr hlt)
      have hpos : 0 < n := by omega
      have hdiv : n / 10 < fuel := by
        have hlt : n / 10 < n := Nat.div_lt_self hpos (by omega)
        omega
      rw [decDigits]
      simp only [Nat.toDigitsCore, h0, if_false, hn]
      rw [ih (n / 10) _ hdiv]
      simp

theorem repr_data_eq_decDigits (n : Nat) : (Nat.repr n).data = decDigits n := by
  show (Nat.toDigits 10 n).asString.data = decDigits n
  rw [Nat.toDigits, toDigitsCore_eq_decDigits (n + 1) n [] (by omega)]
  simp [List.asString]

theorem digitsToNat_concat (l : List Char) (c : Char) :
    digitsToNat (l ++ [c]) = 10 * digitsToNat l + digitVal c := by
  simp [digitsToNat, List.foldl_append]

theorem digitVal_digitChar (m : Nat) (h : m < 10) : digitVal (Nat.digitChar m) = m := by
  interval_cases m <;> rfl

theorem digitsToNat_decDigits (n : Nat) : digitsToNat (decDigits n) = n := by
  induction n using Nat.strong_induction_on with
  | _ n ih =>
    rw [decDigits]
    by_cases h : n < 10
    · simp only [h, if_true]
      show digitsToNat [Nat.digitChar n] = n
      have : digitsToNat [Nat.digitChar n] = digitVal (Nat.digitChar n) := by
        simp [digitsToNat, digitVal]
      rw [this, digitVal_digitChar n h]
    · simp only [h, if_false]
      rw [digitsToNat_concat, ih (n / 10) (Nat.div_lt_self (by omega) (by omega)),
        digitVal_digitChar (n % 10) (Nat.mod_lt n (by omega))]
      omega

theorem natRepr_injective {m n : Nat} (h : Nat.repr m = Nat.repr n) : m = n := by
  have hd : decDigits m = decDigits n := by
    rw [← repr_data_eq_decDigits, ← repr_data_eq_decDigits, h]
  have := congrArg digitsToNat hd
  rwa [digitsToNat_decDigits, digitsToNat_decDigits] at this

theorem decDigits_ne_colon (n : Nat) : ∀ c ∈ decDigits n, c ≠ ':' := by
  induction n using Nat.strong_induction_on with
  | _ n ih =>
    rw [decDigits]
    by_cases h : n < 10
    · simp only [h, if_true, List.mem_singleton]
      intro c hc
      subst hc
      interval_cases n <;> decide
    · simp only [h, if_false, List.mem_append, List.mem_singleton]
      intro c hc
      rcases hc with hc | hc
      · exact ih (n / 10) (Nat.div_lt_self (by omega) (by omega)) c hc
      · subst hc
        have hm : n % 10 < 10 := Nat.mod_lt n (by omega)
        interval_cases h2 : n % 10 <;> simp_all <;> decide

theorem strData_append (a b : String) : (a ++ b).data = a.data ++ b.data := by
  cases a; cases b; rfl

theorem strExt {a b : String} (h : a.data = b.data) : a = b := by
  cases a; cases b; exact congrArg String.mk h

theorem append_sep_split {sep : Char} :
    ∀ (a b x y : List Char), sep ∉ a → sep ∉ b →
      a ++ sep :: x = b ++ sep :: y → a = b ∧ x = y := by
  intro a
  induction a with
  | nil =>
    intro b x y _ hb heq
    cases b with
    | nil => simpa using heq
    | cons c bs =>
      simp only [List.nil_append, List.cons_append, List.cons.injEq] at heq
      exact absurd (heq.1 ▸ List.mem_cons_self c bs) (heq.1 ▸ hb)
  | cons c as ih =>
    intro b x y ha hb heq
    cases b with
    | nil =>
      simp only [List.nil_append, List.cons_append, List.cons.injEq] at heq
      exact absurd (heq.1 ▸ List.mem_cons_self c as) (fun hmem => ha (heq.1 ▸ hmem))
    | cons d bs =>
      simp only [List.cons_append, List.cons.injEq] at heq
      obtain ⟨h1, h2⟩ := heq
      have ha2 : sep ∉ as := fun hm => ha (List.mem_cons_of_mem c hm)
      have hb2 : sep ∉ bs := fun hm => hb (List.mem_cons_of_mem d hm)
      obtain ⟨hab, hxy⟩ := ih bs x y ha2 hb2 h2
      exact ⟨by rw [h1, hab], hxy⟩

theorem joinSep_data_cons2 (s s2 : String) (r2 : List String) :
    (joinSep "." (s :: s2 :: r2)).data = s.data ++ '.' :: (joinSep "." (s2 :: r2)).data := by
  show (s ++ "." ++ joinSep "." (s2 :: r2)).data = _
  rw [strData_append, strData_append]
  rw [show (".").data = ['.'] from rfl]
  simp

theorem mem_joinSep_dot (cls : List String) (c : Char)
    (hc : c ∈ (joinSep "." cls).data) : c = '.' ∨ ∃ s ∈ cls, c ∈ s.data := by
  induction cls with
  | nil => simp [joinSep] at hc
  | cons s rest ih =>
    cases rest with
    | nil =>
      simp only [joinSep] at hc
      exact Or.inr ⟨s, by simp, hc⟩
    | cons s2 r2 =>
      rw [joinSep_data_cons2] at hc
      rcases List.mem_append.mp hc with hc | hc
      · exact Or.inr ⟨s, by simp, hc⟩
      · rcases List.mem_cons.mp hc with hc | hc
        · exact Or.inl hc
        · rcases ih hc with hdot | ⟨s3, hs3, hmem⟩
          · exact Or.inl hdot
          · exact Or.inr ⟨s3, by simp [hs3], hmem⟩

theorem joinSep_dot_inj : ∀ (c1 c2 : List String), classesOk c1 → classesOk c2 →
    joinSep "." c1 = joinSep "." c2 → c1 = c2 := by
  intro c1
  induction c1 with
  | nil =>
    intro c2 _ h2 heq
    cases c2 with
    | nil => rfl
    | cons s rest =>
      exfalso
      cases rest with
      | nil => exact (h2 s (by simp)).1 (congrArg String.data heq.symm)
      | cons s2 r2 =>
        have hdata := congrArg String.data heq
        rw [joinSep_data_cons2] at hdata
        rw [show (joinSep "." ([] : List String)).data = [] from rfl] at hdata
        cases hs : s.data with
        | nil => exact (h2 s (by simp)).1 hs
        | cons a as => rw [hs] at hdata; simp at hdata
  | cons s1 r1 ih =>
    intro c2 h1 h2 heq
    cases c2 with
    | nil =>
      exfalso
      cases r1 with
      | nil => exact (h1 s1 (by simp)).1 (congrArg String.data heq)
      | cons s1b r1b =>
        have hdata := congrArg String.data heq
        rw [joinSep_data_cons2] at hdata
        rw [show (joinSep "." ([] : List String)).data = [] from rfl] at hdata
        cases hs : s1.data with
        | nil => exact (h1 s1 (by simp)).1 hs
        | cons a as => rw [hs] at hdata; simp at hdata
    | cons s2 r2 =>
      cases r1 with
      | nil =>
        cases r2 with
        | nil =>
          have hss : s1 = s2 := heq
          rw [hss]
        | cons s2b r2b =>
          exfalso
          have hdata := congrArg String.data heq
          rw [joinSep_data_cons2] at hdata
          have hdot : '.' ∈ s1.data := by
            rw [show (joinSep "." [s1]).data = s1.data from rfl] at hdata
            rw [hdata]
            simp
          exact ((h1 s1 (by simp)).2 '.' hdot).1 rfl
      | cons s1b r1b =>
        cases r2 with
        | nil =>
          exfalso
          have hdata := congrArg String.data heq
          rw [joinSep_data_cons2] at hdata
          have hdot : '.' ∈ s2.data := by
            rw [show (joinSep "." [s2]).data = s2.data from rfl] at hdata
            rw [← hdata]
            simp
          exact ((h2 s2 (by simp)).2 '.' hdot).1 rfl
        | cons s2b r2b =>
          have hdata := congrArg String.data heq
          rw [joinSep_data_cons2, joinSep_data_cons2] at hdata
          have hnd1 : '.' ∉ s1.data := fun hm => ((h1 s1 (by simp)).2 '.' hm).1 rfl
          have hnd2 : '.' ∉ s2.data := fun hm => ((h2 s2 (by simp)).2 '.' hm).1 rfl
          obtain ⟨hse, hje⟩ := append_sep_split s1.data s2.data _ _ hnd1 hnd2 hdata
          have hok1 : classesOk (s1b :: r1b) := fun s hs => h1 s (by simp [hs])
          have hok2 : classesOk (s2b :: r2b) := fun s hs => h2 s (by simp [hs])
          have htail := ih (s2b :: r2b) hok1 hok2 (strExt hje)
          rw [strExt hse, htail]

theorem genSig_data (n : Node) :
    (generateComponentSignature n).data =
      n.tag.data ++ ':' ::
        ((joinSep "." n.classes).data ++ ':' :: (Nat.repr n.children.length).data) := by
  show (n.tag ++ ":" ++ joinSep "." n.classes ++ ":" ++ Nat.repr n.children.length).data = _
  rw [strData_append, strData_append, strData_append, strData_append]
  rw [show (":").data = [':'] from rfl]
  simp

theorem colon_not_mem_joinSep (cls : List String) (h : classesOk cls) :
    ':' ∉ (joinSep "." cls).data := by
  intro hmem
  rcases mem_joinSep_dot cls ':' hmem with h1 | ⟨s, hs, hc⟩
  · exact absurd h1 (by decide)
  · exact ((h s hs).2 ':' hc).2 rfl

theorem colon_not_mem_repr (n : Nat) : ':' ∉ (Nat.repr n).data := by
  rw [repr_data_eq_decDigits]
  intro hmem
  exact decDigits_ne_colon n ':' hmem rfl

/-- Signatures are injective on the triple (tag, classes, child count) as
long as tags are colon-free and class names are non-empty and free of dots
and colons. -/
theorem signature_inj_of_safe (n1 n2 : Node) (h1 : tagOk n1.tag) (h2 : tagOk n2.tag)
    (h3 : classesOk n1.classes) (h4 : classesOk n2.classes)
    (heq : generateComponentSignature n1 = generateComponentSignature n2) :
    n1.tag = n2.tag ∧ n1.classes = n2.classes ∧
      n1.children.length = n2.children.length := by
  have hdata := congrArg String.data heq
  rw [genSig_data, genSig_data] at hdata
  obtain ⟨ht, hrest⟩ := append_sep_split _ _ _ _ h1 h2 hdata
  obtain ⟨hj, hr⟩ := append_sep_split _ _ _ _
    (colon_not_mem_joinSep _ h3) (colon_not_mem_joinSep _ h4) hrest
  exact ⟨strExt ht, joinSep_dot_inj _ _ h3 h4 (strExt hj), natRepr_injective (strExt hr)⟩

/-- C1, amended: the signature is the tag, the dot-joined classes and the
decimal child count separated by colons, so identical triples always give
identical strings; distinct triples give distinct strings whenever tags
are colon-free and class names are non-empty and free of dots and colons,
but without that proviso collisions exist (see the counterexample with the
class lists [a.b] and [a, b]). -/
theorem structural_signature_spec :
    (∀ n : Node, generateComponentSignature n =
      n.tag ++ ":" ++ joinSep "." n.classes ++ ":" ++ Nat.repr n.children.length) ∧
    (∀ n1 n2 : Node, n1.tag = n2.tag → n1.classes = n2.classes →
      n1.children.length = n2.children.length →
      generateComponentSignature n1 = generateComponentSignature n2) ∧
    (∀ n1 n2 : Node, tagOk n1.tag → tagOk n2.tag → classesOk n1.classes →
      classesOk n2.classes → generateComponentSignature n1 = generateComponentSignature n2 →
      n1.tag = n2.tag ∧ n1.classes = n2.classes ∧
        n1.children.length = n2.children.length) := by
  refine ⟨fun n => rfl, ?_, signature_inj_of_safe⟩
  intro n1 n2 ht hc hl
  simp [generateComponentSignature, ht, hc, hl]

/-- Witness for the congruence and conditional-injectivity clauses of
structural_signature_spec at a concrete separator-free node. -/
theorem structural_signature_spec_witness :
    tagOk btnNode.tag ∧ classesOk btnNode.classes ∧
    (btnNode.tag = btnNode.tag ∧ btnNode.classes = btnNode.classes ∧
      btnNode.children.length = btnNode.children.length) :=
  ⟨by decide, by decide,
    structural_signature_spec.2.2 btnNode btnNode (by decide) (by decide) (by decide)
      (by decide) rfl⟩

end Clooney